import Mathlib

/-!
Shallow embedding of the sdrtrunk-exfiltrator repository: the ZeroMQ audio
producer's envelope encoding (src/zmq_audio_producer.py) and the consumer's
per-message decode/render loop (src/zmq_audio_consumer.py).

Modelling conventions:
* Parsed JSON documents (the result of Python `json.loads`) are values of the
  `Json` inductive; JSON numbers are modelled as integers (the messages the
  repository exchanges only carry integers).
* Python exceptions that the consumer catches are modelled as explicit
  error branches (`Option`/`Except`/Bool flags), mirroring the `try/except`
  structure of `main` in src/zmq_audio_consumer.py.
* Machine text is `String`/`List Char`; byte sequences are `List Nat` with
  every element below 256.
-/

set_option maxHeartbeats 1000000

namespace SdrTrunk

/-- A parsed JSON document, as produced by Python `json.loads`.
Numbers are modelled as integers (the repository's wire format only carries
integer numbers); object key order follows the document, duplicate keys are
not modelled. -/
inductive Json where
  | null : Json
  | bool : Bool → Json
  | num : Int → Json
  | str : String → Json
  | arr : List Json → Json
  | obj : List (String × Json) → Json

/-- Dictionary lookup, modelling Python `dict.get(key)` returning `None`
when the key is absent. -/
def jlookup : List (String × Json) → String → Option Json
  | [], _ => none
  | (k, v) :: rest, key => if k = key then some v else jlookup rest key

/-- Python `dict.get(key, default)`. -/
def jgetD (kvs : List (String × Json)) (key : String) (d : Json) : Json :=
  (jlookup kvs key).getD d

/-- Remove a key from an object (used to state claims about absent fields). -/
def removeKey (kvs : List (String × Json)) (key : String) : List (String × Json) :=
  kvs.filter (fun p => p.1 ≠ key)

/-- Python truthiness (`bool(x)`) of a JSON value: `None`, `False`, `0`,
empty string, empty list and empty dict are falsy. -/
def pyTruthy : Json → Bool
  | .null => false
  | .bool b => b
  | .num n => n ≠ 0
  | .str s => s ≠ ""
  | .arr xs => ¬ xs.isEmpty
  | .obj kvs => ¬ kvs.isEmpty

/-- Python `x == s` for a string literal `s`: only a JSON string with the
same characters compares equal to a Python `str`. -/
def pyEqStr (v : Json) (s : String) : Bool :=
  match v with
  | .str t => t = s
  | _ => false

/-- Python `x == 0`: the integer `0` and `False` compare equal to `0`
(Python `bool` is a subclass of `int`). -/
def pyEqZero : Json → Bool
  | .num n => n = 0
  | .bool b => b = false
  | _ => false

/-- Numeric view of a JSON value, modelling the values for which
`timestamp / 1000.0` (line 62 of the consumer) succeeds: numbers, and
booleans (Python booleans are integers); anything else raises `TypeError`,
which the consumer's generic `except` catches. -/
def pyNumVal : Json → Option Int
  | .num n => some n
  | .bool b => some (if b then 1 else 0)
  | _ => none

mutual

/-- Python `repr` of a JSON value (the form used inside f-string rendering
of containers). Quote characters are written via escapes. -/
def pyRepr : Json → String
  | .null => "None"
  | .bool true => "True"
  | .bool false => "False"
  | .num n => toString n
  | .str s => "\x27" ++ s ++ "\x27"
  | .arr xs => "[" ++ pyReprList xs ++ "]"
  | .obj kvs => "\x7b" ++ pyReprObj kvs ++ "\x7d"

/-- Comma-separated `repr` of list elements. -/
def pyReprList : List Json → String
  | [] => ""
  | [x] => pyRepr x
  | x :: y :: xs => pyRepr x ++ ", " ++ pyReprList (y :: xs)

/-- Comma-separated `repr` of dict items. -/
def pyReprObj : List (String × Json) → String
  | [] => ""
  | [(k, v)] => "\x27" ++ k ++ "\x27: " ++ pyRepr v
  | (k, v) :: q :: xs => "\x27" ++ k ++ "\x27: " ++ pyRepr v ++ ", " ++ pyReprObj (q :: xs)

end

/-- Python `str(x)` as used in f-string interpolation: a string interpolates
as its raw characters, every other value as its `repr`. -/
def pyStr : Json → String
  | .str s => s
  | v => pyRepr v

mutual

/-- Model of `json.dumps` (compact form; the indentation of the verbose
raw-metadata line is abstracted away, no claim depends on it). -/
def jsonDumps : Json → String
  | .null => "null"
  | .bool true => "true"
  | .bool false => "false"
  | .num n => toString n
  | .str s => "\x22" ++ s ++ "\x22"
  | .arr xs => "[" ++ jsonDumpsList xs ++ "]"
  | .obj kvs => "\x7b" ++ jsonDumpsObj kvs ++ "\x7d"

/-- Comma-separated serialization of array elements. -/
def jsonDumpsList : List Json → String
  | [] => ""
  | [x] => jsonDumps x
  | x :: y :: xs => jsonDumps x ++ ", " ++ jsonDumpsList (y :: xs)

/-- Comma-separated serialization of object items. -/
def jsonDumpsObj : List (String × Json) → String
  | [] => ""
  | [(k, v)] => "\x22" ++ k ++ "\x22: " ++ jsonDumps v
  | (k, v) :: q :: xs => "\x22" ++ k ++ "\x22: " ++ jsonDumps v ++ ", " ++ jsonDumpsObj (q :: xs)

end

/-! ## Producer-side audio encoding (src/zmq_audio_producer.py, line 53)

`"audio": str(list(audio_data))` renders the byte sequence as the Python
list literal: each byte as its decimal value, separated by `", "`, wrapped
in square brackets. -/

/-- Decimal digits of a natural number, most significant first, as Python
renders a nonnegative `int`. -/
def natDecimal (n : Nat) : List Char :=
  if _h : n < 10 then [Nat.digitChar n]
  else natDecimal (n / 10) ++ [Nat.digitChar (n % 10)]
  termination_by n
  decreasing_by exact Nat.div_lt_self (by omega) (by omega)

/-- Join character chunks with the `", "` separator Python uses in list
literals. -/
def commaSpaceJoin : List (List Char) → List Char
  | [] => []
  | [x] => x
  | x :: y :: xs => x ++ ',' :: ' ' :: commaSpaceJoin (y :: xs)

/-- Characters of `str(list(B))` for a byte sequence `B`. -/
def strListChars (B : List Nat) : List Char :=
  '[' :: (commaSpaceJoin (B.map natDecimal) ++ [']'])

/-- Model of the producer's `str(list(audio_data))` (line 53 of
src/zmq_audio_producer.py). -/
def strList (B : List Nat) : String :=
  String.mk (strListChars B)

/-! ## Consumer's array-branch audio decode
(src/zmq_audio_consumer.py, lines 105-107)

`json.loads(audio_b64)` followed by `bytes(byte_values)`. The parser below
models `json.loads` on flat-array documents: numbers (JSON grammar:
optional sign, no leading zeros, optional fraction/exponent), strings,
`true`/`false`/`null` as entries. `true`/`false` convert through Python
`bytes()` as the integers 1/0; `null`, floats and strings make `bytes()`
raise. Nested containers as entries are not modelled (for the consumer they
would also end in the same per-message audio error). -/

/-- An array entry as seen by `bytes(byte_values)`: an integral value
(JSON integers and booleans) or a value `bytes()` rejects with `TypeError`
(floats, strings, `null`). -/
inductive JEntry where
  | int : Int → JEntry
  | nonint : JEntry
deriving DecidableEq, Repr

/-- JSON insignificant whitespace. -/
def jws (c : Char) : Bool :=
  c = ' ' ∨ c = '\t' ∨ c = '\n' ∨ c = '\r'

/-- Skip leading JSON whitespace. -/
def skipWs : List Char → List Char
  | [] => []
  | c :: cs => if jws c then skipWs cs else c :: cs

/-- Decimal digit test. -/
def isDigit (c : Char) : Bool :=
  '0' ≤ c ∧ c ≤ '9'

/-- Does the list start with a decimal digit? -/
def headIsDigit : List Char → Bool
  | c :: _ => isDigit c
  | [] => false

/-- Split the longest leading run of decimal digits. -/
def takeDigits : List Char → List Char × List Char
  | [] => ([], [])
  | c :: cs =>
    if isDigit c then
      let (d, r) := takeDigits cs
      (c :: d, r)
    else ([], c :: cs)

/-- Numeric value of a digit run, most significant first. -/
def digitsVal (ds : List Char) : Nat :=
  ds.foldl (fun a c => 10 * a + (c.toNat - 48)) 0

/-- Parse the integer part of a JSON number: `0`, or a nonzero digit
followed by digits (JSON forbids leading zeros). -/
def parseIntPart : List Char → Option (Nat × List Char)
  | [] => none
  | c :: cs =>
    if c = '0' then
      if headIsDigit cs then none else some (0, cs)
    else if isDigit c then
      let (d, r) := takeDigits cs
      some (digitsVal (c :: d), r)
    else none

/-- Drop an optional exponent sign. -/
def dropSign : List Char → List Char
  | [] => []
  | c :: r => if c = '+' ∨ c = '-' then r else c :: r

/-- Parse a JSON exponent body (after `e`/`E`): optional sign, then at
least one digit. -/
def parseExp (cs : List Char) : Option (List Char) :=
  let (d, r) := takeDigits (dropSign cs)
  if d = [] then none else some r

/-- Parse an optional fraction and exponent after the integer part; the
Boolean reports whether the number is a float (fraction or exponent
present). -/
def parseFracExp : List Char → Option (Bool × List Char)
  | [] => some (false, [])
  | c :: r =>
    if c = '.' then
      let (d, r2) := takeDigits r
      if d = [] then none
      else
        match r2 with
        | e :: r3 => if e = 'e' ∨ e = 'E' then (parseExp r3).map (fun r4 => (true, r4))
                     else some (true, r2)
        | [] => some (true, [])
    else if c = 'e' ∨ c = 'E' then (parseExp r).map (fun r4 => (true, r4))
    else some (false, c :: r)

/-- Parse a JSON number; integers yield `JEntry.int`, floats `JEntry.nonint`. -/
def parseNumber : List Char → Option (JEntry × List Char)
  | [] => none
  | c :: r =>
    let (neg, cs1) := if c = '-' then (true, r) else (false, c :: r)
    match parseIntPart cs1 with
    | none => none
    | some (n, rest) =>
      match parseFracExp rest with
      | none => none
      | some (flt, rest2) =>
        if flt then some (JEntry.nonint, rest2)
        else some (JEntry.int (if neg then -(n : Int) else (n : Int)), rest2)

/-- Scan to the closing quote of a JSON string body (escape sequences are
skipped pairwise; the validity of individual escapes is abstracted). -/
def parseStringBody : List Char → Option (List Char)
  | [] => none
  | '"' :: r => some r
  | '\\' :: _ :: r => parseStringBody r
  | _ :: r => parseStringBody r

/-- Parse one array entry: a string, keyword or number. -/
def parseEntry : List Char → Option (JEntry × List Char)
  | [] => none
  | c :: r =>
    if c = '"' then (parseStringBody r).map (fun r2 => (JEntry.nonint, r2))
    else if c = 't' then
      if r.take 3 = ['r', 'u', 'e'] then some (JEntry.int 1, r.drop 3) else none
    else if c = 'f' then
      if r.take 4 = ['a', 'l', 's', 'e'] then some (JEntry.int 0, r.drop 4) else none
    else if c = 'n' then
      if r.take 3 = ['u', 'l', 'l'] then some (JEntry.nonint, r.drop 3) else none
    else parseNumber (c :: r)

/-- Parse the comma-separated entries of a nonempty array body up to and
including the closing bracket; fuelled to make termination structural. -/
def parseElems : Nat → List Char → Option (List JEntry × List Char)
  | 0, _ => none
  | fuel + 1, cs =>
    match parseEntry (skipWs cs) with
    | none => none
    | some (e, r1) =>
      match skipWs r1 with
      | ',' :: r3 =>
        match parseElems fuel r3 with
        | none => none
        | some (es, r4) => some (e :: es, r4)
      | ']' :: r3 => some ([e], r3)
      | _ => none

/-- Does the list start with the given character? -/
def headIs : List Char → Char → Bool
  | c :: _, x => c = x
  | [], _ => false

/-- Parse an array body after the opening bracket and surrounding
whitespace have been consumed. -/
def parseArrayBody (r1 : List Char) : Option (List JEntry) :=
  if headIs r1 ']' then (if skipWs r1.tail = [] then some [] else none)
  else
    match parseElems (r1.length + 1) r1 with
    | some (es, rest) => if skipWs rest = [] then some es else none
    | none => none

/-- Model of `json.loads` restricted to array documents (the only shape the
consumer's array branch feeds it): the whole text must be one array with
nothing but whitespace around it. -/
def parseJsonArray (s : String) : Option (List JEntry) :=
  match skipWs s.data with
  | [] => none
  | c :: r => if c = '[' then parseArrayBody (skipWs r) else none

/-- Model of Python `bytes(byte_values)`: every entry must be an integer in
`0..255` (booleans count as 0/1), otherwise `TypeError`/`ValueError`. -/
def bytesOfEntries : List JEntry → Option (List Nat)
  | [] => some []
  | JEntry.int n :: es =>
    if 0 ≤ n ∧ n < 256 then (bytesOfEntries es).map (fun bs => n.toNat :: bs)
    else none
  | JEntry.nonint :: _ => none

/-- The consumer's array branch (lines 106-107): `json.loads` then
`bytes(...)`; either failure is caught by the surrounding audio `except`. -/
def arrayDecode (s : String) : Except String (List Nat) :=
  match parseJsonArray s with
  | none => .error "invalid JSON audio array"
  | some es =>
    match bytesOfEntries es with
    | none => .error "bytes conversion failed"
    | some bs => .ok bs

/-! ## Base64 (Python `base64.b64encode` / `b64decode`), the consumer's
other audio branch (line 110). -/

/-- The standard base64 alphabet, by sextet value. -/
def b64Char (n : Nat) : Char :=
  if n < 26 then Char.ofNat (65 + n)
  else if n < 52 then Char.ofNat (97 + (n - 26))
  else if n < 62 then Char.ofNat (48 + (n - 52))
  else if n = 62 then '+'
  else '/'

/-- Sextet value of a base64 alphabet character, `none` outside the
alphabet. -/
def b64Index (c : Char) : Option Nat :=
  if 'A' ≤ c ∧ c ≤ 'Z' then some (c.toNat - 65)
  else if 'a' ≤ c ∧ c ≤ 'z' then some (c.toNat - 97 + 26)
  else if '0' ≤ c ∧ c ≤ '9' then some (c.toNat - 48 + 52)
  else if c = '+' then some 62
  else if c = '/' then some 63
  else none

/-- Characters of `base64.b64encode(B)`: three bytes become four sextet
characters; a final one- or two-byte group is padded with `=`. -/
def b64encodeChunks : List Nat → List Char
  | [] => []
  | [a] => [b64Char (a / 4), b64Char (a % 4 * 16), '=', '=']
  | [a, b] =>
    [b64Char ((a * 256 + b) / 1024), b64Char ((a * 256 + b) / 16 % 64),
     b64Char ((a * 256 + b) % 16 * 4), '=']
  | a :: b :: c :: rest =>
    b64Char ((a * 65536 + b * 256 + c) / 262144) ::
    b64Char ((a * 65536 + b * 256 + c) / 4096 % 64) ::
    b64Char ((a * 65536 + b * 256 + c) / 64 % 64) ::
    b64Char ((a * 65536 + b * 256 + c) % 64) ::
    b64encodeChunks rest

/-- Model of `base64.b64encode(B)` (as text). -/
def b64encode (B : List Nat) : String :=
  String.mk (b64encodeChunks B)

/-- Decode base64 quads: a properly padded final quad yields one or two
bytes, full quads three; any other shape is the `binascii` error
`b64decode` raises. -/
def b64decodeQuads : List Char → Except String (List Nat)
  | [] => .ok []
  | c1 :: c2 :: c3 :: c4 :: rest =>
    match b64Index c1, b64Index c2 with
    | some v1, some v2 =>
      if c3 = '=' ∧ c4 = '=' ∧ rest = [] then
        .ok [v1 * 4 + v2 / 16]
      else
        match b64Index c3 with
        | some v3 =>
          if c4 = '=' ∧ rest = [] then
            .ok [v1 * 4 + v2 / 16, v2 % 16 * 16 + v3 / 4]
          else
            match b64Index c4 with
            | some v4 =>
              match b64decodeQuads rest with
              | .ok tail => .ok ((v1 * 4 + v2 / 16) :: (v2 % 16 * 16 + v3 / 4) ::
                                 (v3 % 4 * 64 + v4) :: tail)
              | .error e => .error e
            | none => .error "invalid base64 character"
        | none => .error "invalid base64 character"
    | _, _ => .error "invalid base64 character"
  | _ => .error "invalid base64 length"

/-- Model of Python `base64.b64decode` (default mode): characters outside
the alphabet and padding are discarded, then the remainder is decoded in
quads. Degenerate paddings that CPython tolerates are simplified to errors;
no claim depends on them. -/
def b64decode (s : String) : Except String (List Nat) :=
  b64decodeQuads (s.data.filter (fun c => (b64Index c).isSome ∨ c = '='))

/-! ## The consumer's dual-mode audio decode
(src/zmq_audio_consumer.py, lines 105-110). -/

/-- Python `audio_b64.startswith('[')`. -/
def startsWithBracket (s : String) : Bool :=
  match s.data with
  | c :: _ => c = '['
  | [] => false

/-- Python `audio_b64.endswith(']')`. -/
def endsWithBracket (s : String) : Bool :=
  match s.data.getLast? with
  | some c => c = ']'
  | none => false

/-- The consumer's audio-field decode (lines 105-110): syntactic sniff on
the brackets selects the array branch, otherwise base64. -/
def decodeAudio (s : String) : Except String (List Nat) :=
  if startsWithBracket s ∧ endsWithBracket s then arrayDecode s
  else b64decode s

/-! ## Consumer per-message processing (src/zmq_audio_consumer.py, main) -/

/-- Consumer configuration: the `--save-audio` and `--verbose` flags. -/
structure Config where
  saveAudio : Bool
  verbose : Bool
deriving DecidableEq, Repr

/-- Left-pad a string with zeros to the given width (Python `f"{n:04d}"`
for nonnegative values). -/
def padZero (w : Nat) (s : String) : String :=
  if s.length < w then String.mk (List.replicate (w - s.length) '0') ++ s else s

/-- Wall-clock `%H:%M:%S` derived from a millisecond timestamp (line 62).
The local timezone of `datetime.fromtimestamp` is abstracted to UTC;
no claim depends on the rendered time. -/
def timeStr (ms : Int) : String :=
  let secs := ms / 1000
  padZero 2 (toString ((secs / 3600) % 24)) ++ ":" ++
  padZero 2 (toString ((secs / 60) % 60)) ++ ":" ++
  padZero 2 (toString (secs % 60))

/-- The per-message header line (line 65). -/
def headerLine (ms : Int) (counter : Nat) : String :=
  "\n[" ++ timeStr ms ++ "] Audio #" ++ toString counter ++ ":"

/-- Protocol line (lines 67-69): printed unless the value compares equal
to the `'Unknown'` default. -/
def protocolLines (m : List (String × Json)) : List String :=
  let p := jgetD m "protocol" (.str "Unknown")
  if pyEqStr p "Unknown" then [] else ["  Protocol: " ++ pyStr p]

/-- Frequency line (lines 71-73): printed unless the value is the
`'Unknown'` default or compares equal to `0`. -/
def frequencyLines (m : List (String × Json)) : List String :=
  let f := jgetD m "frequency" (.str "Unknown")
  if ¬ pyEqStr f "Unknown" ∧ ¬ pyEqZero f then ["  Frequency: " ++ pyStr f ++ " Hz"]
  else []

/-- Timeslot line (lines 75-77). -/
def timeslotLines (m : List (String × Json)) : List String :=
  let t := jgetD m "timeslot" (.str "Unknown")
  if pyEqStr t "Unknown" then [] else ["  Timeslot: " ++ pyStr t]

/-- FROM block (lines 80-85): a truthy non-dict value makes
`from_info.get` raise (`none`); a truthy dict prints unless `id` is the
`'Unknown'` default. -/
def fromLines (m : List (String × Json)) : Option (List String) :=
  let fv := jgetD m "from" (.obj [])
  if pyTruthy fv then
    match fv with
    | .obj fm =>
      let fid := jgetD fm "id" (.str "Unknown")
      let fal := jgetD fm "alias" (.str "No alias")
      some (if pyEqStr fid "Unknown" then []
            else ["  From: " ++ pyStr fid ++ " (" ++ pyStr fal ++ ")"])
    | _ => none
  else some []

/-- TO block (lines 88-93), analogous to the FROM block. -/
def toLines (m : List (String × Json)) : Option (List String) :=
  let tv := jgetD m "to" (.obj [])
  if pyTruthy tv then
    match tv with
    | .obj tm =>
      let tid := jgetD tm "id" (.str "Unknown")
      let tal := jgetD tm "alias" (.str "No alias")
      some (if pyEqStr tid "Unknown" then []
            else ["  To: " ++ pyStr tid ++ " (" ++ pyStr tal ++ ")"])
    | _ => none
  else some []

/-- LCN line (lines 96-98): `metadata.get('lcn')` yields Python `None`
both for an absent key and a JSON `null`; anything else is printed,
including `0`. -/
def lcnLines (m : List (String × Json)) : List String :=
  match jlookup m "lcn" with
  | none => []
  | some .null => []
  | some v => ["  LCN: " ++ pyStr v]

/-- Metadata rendering (lines 67-98): produces the printed lines and
whether an uncaught-in-block exception aborts the message (a non-dict
metadata value, or a truthy non-dict `from`/`to`); lines printed before
the raising statement are kept. -/
def renderMeta (md : Json) : List String × Bool :=
  match md with
  | .obj m =>
    let a := protocolLines m ++ frequencyLines m ++ timeslotLines m
    match fromLines m with
    | none => (a, true)
    | some fl =>
      match toLines m with
      | none => (a ++ fl, true)
      | some tl => (a ++ fl ++ tl ++ lcnLines m, false)
  | _ => ([], true)

/-- A WAV file written by the consumer: the counter and timestamp baked
into its name, and the decoded PCM bytes. -/
structure SavedFile where
  counter : Nat
  timestamp : Int
  data : List Nat
deriving DecidableEq, Repr

/-- The WAV filename (line 114): `dmr_audio_{counter:04d}_{int(ts)}.wav`. -/
def fileName (counter : Nat) (ts : Int) : String :=
  "dmr_audio_" ++ padZero 4 (toString counter) ++ "_" ++ toString ts ++ ".wav"

/-- The audio block (lines 100-119): entered only when the audio value is
truthy and `--save-audio` is set; inside it, decode errors (and the
attribute error of a non-string audio value) print an audio error and are
swallowed. On success the counter is incremented a second time, the file
is written and the saved line printed. Returns (lines, files, counter). -/
def audioStep (cfg : Config) (c1 : Nat) (tsv : Int) (audio : Json) :
    List String × List SavedFile × Nat :=
  if pyTruthy audio ∧ cfg.saveAudio then
    match audio with
    | .str s =>
      match decodeAudio s with
      | .ok data =>
        let c2 := c1 + 1
        (["  Audio saved: " ++ fileName c2 tsv ++ " (" ++ toString data.length ++ " bytes)"],
         [⟨c2, tsv, data⟩], c2)
      | .error e => (["  Error processing audio: " ++ e], [], c1)
    | _ => (["  Error processing audio: attribute error"], [], c1)
  else ([], [], c1)

/-- Observable outcome of handling one received message: the printed
lines, the files written, and whether a per-message error was reported
(the `except` clauses at lines 124-127). -/
structure MsgOut where
  lines : List String
  saved : List SavedFile
  errored : Bool
deriving DecidableEq, Repr

/-- A received message after `json.loads`: either a malformed document
(`json.JSONDecodeError`) or a parsed value. `json.loads` itself is total
on text: every input falls in one of the two cases. -/
inductive Wire where
  | malformed : Wire
  | doc : Json → Wire

/-- The body of the consumer's message handling after field extraction
(lines 57-122): timestamp conversion, header, metadata rendering, the
optional audio block and the verbose line, with every exception routed to
the per-message `except` clauses (lines 124-127). -/
def processDoc (cfg : Config) (counter : Nat) (ts md audio : Json) : MsgOut × Nat :=
  match pyNumVal ts with
  | none => (⟨["Error processing message"], [], true⟩, counter)
  | some tsv =>
    let c1 := counter + 1
    let hdr := headerLine tsv c1
    let (mlines, merr) := renderMeta md
    if merr then (⟨hdr :: (mlines ++ ["Error processing message"]), [], true⟩, c1)
    else
      let (alines, saved, c2) := audioStep cfg c1 tsv audio
      let vlines := if cfg.verbose then ["  Raw metadata: " ++ jsonDumps md] else []
      (⟨hdr :: (mlines ++ alines ++ vlines), saved, false⟩, c2)

/-- One iteration of the consumer's message handling (lines 52-127): a
malformed document reports the JSON parse error; a document that is not an
object makes `message.get` raise (reported by the generic handler);
otherwise the three fields are extracted with their defaults (line 57-59)
and processed. Returns the observable output and the updated
`audio_counter`. -/
def processWire (cfg : Config) (counter : Nat) (w : Wire) : MsgOut × Nat :=
  match w with
  | .malformed => (⟨["Error parsing JSON message"], [], true⟩, counter)
  | .doc (.obj kvs) =>
    processDoc cfg counter (jgetD kvs "timestamp" (.num 0))
      (jgetD kvs "metadata" (.obj [])) (jgetD kvs "audio" (.str ""))
  | .doc _ => (⟨["Error processing message"], [], true⟩, counter)

/-! ## The consumer's receive loop and shutdown
(src/zmq_audio_consumer.py, lines 38-137). -/

/-- An event observed at `socket.recv` (line 50): a message arrives, the
queue is empty at the moment of the call, a transport-level exception, or
an operator interrupt delivered during the call. -/
inductive Ev where
  | recv : Wire → Ev
  | empty : Ev
  | fail : Ev
  | interrupt : Ev

/-- How a consumer run ends: `interrupted` (KeyboardInterrupt, line 129),
`noMessages` (`zmq.Again` escaping the loop, line 131), `errored` (the
generic handler, line 133), or `outOfEvents` (the trace ended with the
loop still running). -/
inductive Outcome where
  | interrupted : Outcome
  | noMessages : Outcome
  | errored : Outcome
  | outOfEvents : Outcome
deriving DecidableEq, Repr

/-- `true` exactly when the receive loop has terminated. -/
def isExit : Outcome → Bool
  | .outOfEvents => false
  | _ => true

/-- Mutable state of the receive loop: the `audio_counter`, and the
accumulated console lines and saved files. -/
structure LoopState where
  counter : Nat
  lines : List String
  saved : List SavedFile
deriving DecidableEq, Repr

/-- Fold one received message into the loop state. -/
def stepMsg (cfg : Config) (st : LoopState) (w : Wire) : LoopState :=
  let (out, c2) := processWire cfg st.counter w
  ⟨c2, st.lines ++ out.lines, st.saved ++ out.saved⟩

/-- The `while True` receive loop (lines 48-127) over a trace of events.
A blocking `recv` (verbose off) on an empty queue simply waits for the
next event; a non-blocking `recv` (`zmq.NOBLOCK` is passed exactly when
`--verbose` is set, line 50) raises `zmq.Again`, which no handler inside
the loop catches. -/
def runAux (cfg : Config) (st : LoopState) : List Ev → Outcome × LoopState
  | [] => (.outOfEvents, st)
  | .interrupt :: _ => (.interrupted, st)
  | .fail :: _ => (.errored, st)
  | .empty :: evs => if cfg.verbose then (.noMessages, st) else runAux cfg st evs
  | .recv w :: evs => runAux cfg (stepMsg cfg st w) evs

/-- Transport resources: the SUB socket and its owning context. -/
structure Resources where
  socketClosed : Bool
  contextTerminated : Bool
deriving DecidableEq, Repr

/-- The `finally` block shared by producer and consumer:
`socket.close()` then `context.term()`. -/
def shutdown (_r : Resources) : Resources :=
  ⟨true, true⟩

/-- Final state of a consumer process run. -/
structure ConsumerFinal where
  outcome : Outcome
  st : LoopState
  res : Resources
deriving DecidableEq, Repr

/-- The consumer's `main` after argument parsing (lines 34-137): acquire
the context and socket, run the loop, route the escaping
exception (if any) to its handler, and run the `finally` block on every
path. -/
def consumerMain (cfg : Config) (evs : List Ev) : ConsumerFinal :=
  let acquired : Resources := ⟨false, false⟩
  let (oc, st) := runAux cfg ⟨0, [], []⟩ evs
  let tail : List String :=
    match oc with
    | .interrupted => ["\nShutting down..."]
    | .noMessages => ["No messages available"]
    | .errored => ["Error"]
    | .outOfEvents => []
  ⟨oc, ⟨st.counter, st.lines ++ tail, st.saved⟩, shutdown acquired⟩

/-! ## The producer's send loop and shutdown
(src/zmq_audio_producer.py, lines 87-139). -/

/-- An event in the producer's send loop: one iteration runs to completion
(`step`), a transport exception (`fail`), or an operator interrupt
(`interrupt`). -/
inductive PEv where
  | step : PEv
  | fail : PEv
  | interrupt : PEv

/-- How a producer run ends. -/
inductive POutcome where
  | completed : POutcome
  | interrupted : POutcome
  | errored : POutcome
  | outOfEvents : POutcome
deriving DecidableEq, Repr

/-- The producer's `while True` loop (lines 102-130): break once the
configured message count is reached (`count > 0` only), otherwise send and
keep going. -/
def producerRun (count : Nat) (sent : Nat) : List PEv → POutcome × Nat
  | [] => (.outOfEvents, sent)
  | .interrupt :: _ => (.interrupted, sent)
  | .fail :: _ => (.errored, sent)
  | .step :: evs =>
    if 0 < count ∧ count ≤ sent then (.completed, sent)
    else producerRun count (sent + 1) evs

/-- Final state of a producer process run. -/
structure ProducerFinal where
  outcome : POutcome
  sent : Nat
  res : Resources
deriving DecidableEq, Repr

/-- The producer's `main` after argument parsing (lines 86-139): run the
loop and execute the `finally` block on every path. -/
def producerMain (count : Nat) (evs : List PEv) : ProducerFinal :=
  let acquired : Resources := ⟨false, false⟩
  let (oc, sent) := producerRun count 0 evs
  ⟨oc, sent, shutdown acquired⟩

/-! ## Helper lemmas -/

theorem jlookup_cons (k key : String) (v : Json) (m : List (String × Json)) :
    jlookup ((k, v) :: m) key = if k = key then some v else jlookup m key := rfl

theorem jgetD_cons_ne (k key : String) (v d : Json) (m : List (String × Json))
    (h : k ≠ key) : jgetD ((k, v) :: m) key d = jgetD m key d := by
  simp [jgetD, jlookup, h]

theorem jlookup_removeKey_self (kvs : List (String × Json)) (k : String) :
    jlookup (removeKey kvs k) k = none := by
  induction kvs with
  | nil => rfl
  | cons p rest ih =>
    obtain ⟨k', v⟩ := p
    by_cases h : k' = k
    · subst h
      simpa [removeKey] using ih
    · simpa [removeKey, jlookup, h] using ih

theorem jlookup_removeKey_ne (kvs : List (String × Json)) (k key : String)
    (h : key ≠ k) : jlookup (removeKey kvs k) key = jlookup kvs key := by
  induction kvs with
  | nil => rfl
  | cons p rest ih =>
    obtain ⟨k', v⟩ := p
    by_cases h2 : k' = k
    · subst h2
      have : k' ≠ key := fun hc => h (hc ▸ rfl)
      simpa [removeKey, jlookup, this] using ih
    · by_cases h3 : k' = key
      · subst h3
        simp [removeKey, jlookup, h2]
      · simpa [removeKey, jlookup, h2, h3] using ih

/-! ## C7: clean shutdown on every exit path -/

/-- C7: on every exit path of both the producer and the consumer — normal
completion, any error, or operator interrupt — the transport socket is
closed and its owning context is terminated before the process exits. -/
theorem claim_C7_clean_shutdown (cfg : Config) (evs : List Ev)
    (count : Nat) (pevs : List PEv) :
    ((consumerMain cfg evs).res.socketClosed = true ∧
     (consumerMain cfg evs).res.contextTerminated = true) ∧
    ((producerMain count pevs).res.socketClosed = true ∧
     (producerMain count pevs).res.contextTerminated = true) := by
  constructor
  · rcases h : runAux cfg ⟨0, [], []⟩ evs with ⟨oc, st⟩
    simp [consumerMain, h, shutdown]
  · rcases h : producerRun count 0 pevs with ⟨oc, sent⟩
    simp [producerMain, h, shutdown]

/-! ## C6: when the receive loop exits -/

/-- C6 counterexample: with the non-blocking polling configuration
(`--verbose`), an empty receive queue makes `socket.recv` raise
`zmq.Again`, which no handler inside the loop catches: the loop exits
without any operator interrupt, contradicting the claim. -/
theorem claim_C6_counterexample :
    isExit (consumerMain ⟨false, true⟩ [Ev.empty]).outcome = true ∧
    (consumerMain ⟨false, true⟩ [Ev.empty]).outcome ≠ Outcome.interrupted := by
  constructor
  · rfl
  · intro h
    simp [consumerMain, runAux] at h

/-- C6 (amended): absent transport failures, the receive loop exits only
by operator interrupt, except that in the non-blocking polling
configuration (`--verbose`) an empty receive queue also ends the run with
a no-messages report. -/
theorem claim_C6_exit_modes (cfg : Config) (st : LoopState) (evs : List Ev)
    (hnf : Ev.fail ∉ evs) (hex : isExit (runAux cfg st evs).1 = true) :
    (runAux cfg st evs).1 = Outcome.interrupted ∨
    (cfg.verbose = true ∧ (runAux cfg st evs).1 = Outcome.noMessages) := by
  induction evs generalizing st with
  | nil => simp [runAux, isExit] at hex
  | cons e rest ih =>
    cases e with
    | recv w =>
      exact ih (stepMsg cfg st w) (fun hm => hnf (List.mem_cons_of_mem _ hm))
        (by simpa [runAux] using hex)
    | empty =>
      by_cases hv : cfg.verbose = true
      · right
        exact ⟨hv, by simp [runAux, hv]⟩
      · have hv' : cfg.verbose = false := by
          cases hcv : cfg.verbose
          · rfl
          · exact absurd hcv hv
        have hrw : runAux cfg st (Ev.empty :: rest) = runAux cfg st rest := by
          simp [runAux, hv']
        rw [hrw] at hex ⊢
        exact ih st (fun hm => hnf (List.mem_cons_of_mem _ hm)) hex
    | fail => exact absurd (List.mem_cons_self _ _) hnf
    | interrupt => left; simp [runAux]

/-- C6 witness: a blocking-mode run ended by an operator interrupt. -/
theorem claim_C6_exit_modes_witness :
    (runAux ⟨false, false⟩ ⟨0, [], []⟩ [Ev.interrupt]).1 = Outcome.interrupted ∨
    ((⟨false, false⟩ : Config).verbose = true ∧
     (runAux ⟨false, false⟩ ⟨0, [], []⟩ [Ev.interrupt]).1 = Outcome.noMessages) :=
  claim_C6_exit_modes ⟨false, false⟩ ⟨0, [], []⟩ [Ev.interrupt]
    (by simp) (by rfl)

/-! ## C8: lcn absent/null versus lcn = 0 -/

/-- C8: after decode, a metadata record without `lcn` (or with `lcn` null)
renders no LCN line, while `lcn = 0` renders the line `LCN: 0`; the two
envelopes are distinguishable whenever the metadata block renders without
error. -/
theorem claim_C8_lcn_distinguishable (m : List (String × Json)) :
    ((jlookup m "lcn" = none ∨ jlookup m "lcn" = some Json.null) →
      lcnLines m = []) ∧
    (jlookup m "lcn" = some (Json.num 0) → lcnLines m = ["  LCN: 0"]) ∧
    (jlookup m "lcn" = none → (renderMeta (Json.obj m)).2 = false →
      renderMeta (Json.obj m) ≠ renderMeta (Json.obj (("lcn", Json.num 0) :: m))) := by
  refine ⟨fun h => ?_, fun h => ?_, fun habs hok heq => ?_⟩
  · rcases h with h | h <;> simp [lcnLines, h]
  · simp [lcnLines, h]
    rfl
  · have hp : protocolLines (("lcn", Json.num 0) :: m) = protocolLines m := by
      simp [protocolLines, jgetD, jlookup]
    have hf : frequencyLines (("lcn", Json.num 0) :: m) = frequencyLines m := by
      simp [frequencyLines, jgetD, jlookup]
    have ht : timeslotLines (("lcn", Json.num 0) :: m) = timeslotLines m := by
      simp [timeslotLines, jgetD, jlookup]
    have hfrom : fromLines (("lcn", Json.num 0) :: m) = fromLines m := by
      simp [fromLines, jgetD, jlookup]
    have hto : toLines (("lcn", Json.num 0) :: m) = toLines m := by
      simp [toLines, jgetD, jlookup]
    have hl : lcnLines (("lcn", Json.num 0) :: m) = ["  LCN: 0"] := by
      simp [lcnLines, jlookup]
      rfl
    have hl0 : lcnLines m = [] := by simp [lcnLines, habs]
    rcases hfl : fromLines m with _ | fl
    · simp [renderMeta, hfl] at hok
    · rcases htl : toLines m with _ | tl
      · simp [renderMeta, hfl, htl] at hok
      · have hlhs : renderMeta (Json.obj m) =
            (protocolLines m ++ frequencyLines m ++ timeslotLines m ++ fl ++ tl, false) := by
          simp [renderMeta, hfl, htl, hl0]
        have hrhs : renderMeta (Json.obj (("lcn", Json.num 0) :: m)) =
            (protocolLines m ++ frequencyLines m ++ timeslotLines m ++ fl ++ tl ++
              ["  LCN: 0"], false) := by
          simp [renderMeta, hp, hf, ht, hfrom, hto, hfl, htl, hl]
        rw [hlhs, hrhs] at heq
        have := congrArg (fun p => p.1.length) heq
        simp at this

/-- C8 witness: a concrete metadata record with `lcn = 0` renders the
`LCN: 0` line. -/
theorem claim_C8_lcn_distinguishable_witness :
    lcnLines [("lcn", Json.num 0)] = ["  LCN: 0"] :=
  (claim_C8_lcn_distinguishable [("lcn", Json.num 0)]).2.1 rfl

/-! ## C9: frequency suppression -/

/-- C9: an absent frequency or `frequency = 0` prints no frequency line; a
nonzero integer frequency prints the frequency line. -/
theorem claim_C9_frequency_suppression (m : List (String × Json)) :
    (jlookup m "frequency" = none → frequencyLines m = []) ∧
    (jlookup m "frequency" = some (Json.num 0) → frequencyLines m = []) ∧
    (∀ n : Int, jlookup m "frequency" = some (Json.num n) → n ≠ 0 →
      frequencyLines m = ["  Frequency: " ++ toString n ++ " Hz"]) := by
  refine ⟨fun h => ?_, fun h => ?_, fun n h hn => ?_⟩
  · simp [frequencyLines, jgetD, h, pyEqStr]
  · simp [frequencyLines, jgetD, h, pyEqStr, pyEqZero]
  · simp [frequencyLines, jgetD, h, pyEqStr, pyEqZero, hn]
    rfl

/-- C9 witness: frequency 462675000 prints its line, frequency 0 and an
absent frequency print none. -/
theorem claim_C9_frequency_suppression_witness :
    frequencyLines [("frequency", Json.num 462675000)] =
      ["  Frequency: " ++ toString (462675000 : Int) ++ " Hz"] ∧
    frequencyLines [("frequency", Json.num 0)] = [] ∧
    frequencyLines [] = [] :=
  ⟨(claim_C9_frequency_suppression [("frequency", Json.num 462675000)]).2.2
      462675000 rfl (by decide),
   (claim_C9_frequency_suppression [("frequency", Json.num 0)]).2.1 rfl,
   (claim_C9_frequency_suppression []).1 rfl⟩

/-! ## Helper lemmas about the audio block and the counter -/

theorem audioStep_flag_off (cfg : Config) (c1 : Nat) (tsv : Int) (audio : Json)
    (h : cfg.saveAudio = false) : audioStep cfg c1 tsv audio = ([], [], c1) := by
  simp [audioStep, h]

theorem audioStep_empty_str (cfg : Config) (c1 : Nat) (tsv : Int) :
    audioStep cfg c1 tsv (.str "") = ([], [], c1) := by
  simp [audioStep, pyTruthy]

theorem processDoc_congr_audio (cfg : Config) (c : Nat) (ts md a1 a2 : Json)
    (h : ∀ c1 tsv, audioStep cfg c1 tsv a1 = audioStep cfg c1 tsv a2) :
    processDoc cfg c ts md a1 = processDoc cfg c ts md a2 := by
  unfold processDoc
  cases pyNumVal ts with
  | none => rfl
  | some tsv =>
    rcases renderMeta md with ⟨mlines, merr⟩
    cases merr <;> simp [h]

theorem audioStep_cases (cfg : Config) (c1 : Nat) (tsv : Int) (audio : Json) :
    ((audioStep cfg c1 tsv audio).2.1 = [] ∧ (audioStep cfg c1 tsv audio).2.2 = c1) ∨
    (∃ data, (audioStep cfg c1 tsv audio).2.1 = [⟨c1 + 1, tsv, data⟩] ∧
      (audioStep cfg c1 tsv audio).2.2 = c1 + 1) := by
  unfold audioStep
  by_cases h : pyTruthy audio ∧ cfg.saveAudio
  · simp only [if_pos h]
    cases audio with
    | str s =>
      cases hda : decodeAudio s with
      | ok data => exact Or.inr ⟨data, by simp [hda]⟩
      | error e => exact Or.inl (by simp [hda])
    | null => exact Or.inl (by simp)
    | bool b => exact Or.inl (by simp)
    | num n => exact Or.inl (by simp)
    | arr xs => exact Or.inl (by simp)
    | obj kvs => exact Or.inl (by simp)
  · left
    constructor <;> simp [h]

theorem processDoc_saved (cfg : Config) (c : Nat) (ts md audio : Json) :
    c ≤ (processDoc cfg c ts md audio).2 ∧
    ((processDoc cfg c ts md audio).1.saved = [] ∨
     ∃ sf : SavedFile, (processDoc cfg c ts md audio).1.saved = [sf] ∧
       sf.counter = c + 2 ∧ (processDoc cfg c ts md audio).2 = c + 2) := by
  rcases hnum : pyNumVal ts with _ | tsv
  · simp [processDoc, hnum]
  · rcases hrm : renderMeta md with ⟨mlines, merr⟩
    cases merr
    · rcases ha : audioStep cfg (c + 1) tsv audio with ⟨alines, saved, c2⟩
      have hc := audioStep_cases cfg (c + 1) tsv audio
      rw [ha] at hc
      simp only [processDoc, hnum, hrm, ha]
      rcases hc with ⟨h1, h2⟩ | ⟨data, h1, h2⟩
      · simp only at h1 h2
        subst h1
        subst h2
        exact ⟨by simp; try omega, Or.inl (by simp)⟩
      · simp only at h1 h2
        subst h1
        subst h2
        refine ⟨by simp; try omega, Or.inr ⟨⟨c + 2, tsv, data⟩, ?_, rfl, by simp⟩⟩
        simp
    · simp only [processDoc, hnum, hrm]
      exact ⟨by simp; try omega, Or.inl (by simp)⟩

theorem processWire_saved (cfg : Config) (c : Nat) (w : Wire) :
    c ≤ (processWire cfg c w).2 ∧
    ((processWire cfg c w).1.saved = [] ∨
     ∃ sf : SavedFile, (processWire cfg c w).1.saved = [sf] ∧
       sf.counter = c + 2 ∧ (processWire cfg c w).2 = c + 2) := by
  cases w with
  | malformed => exact ⟨le_refl c, Or.inl rfl⟩
  | doc j =>
    cases j with
    | obj kvs => exact processDoc_saved cfg c _ _ _
    | null => exact ⟨le_refl c, Or.inl rfl⟩
    | bool b => exact ⟨le_refl c, Or.inl rfl⟩
    | num n => exact ⟨le_refl c, Or.inl rfl⟩
    | str s => exact ⟨le_refl c, Or.inl rfl⟩
    | arr xs => exact ⟨le_refl c, Or.inl rfl⟩

theorem processDoc_saved_flag_off (cfg : Config) (c : Nat) (ts md audio : Json)
    (h : cfg.saveAudio = false) : (processDoc cfg c ts md audio).1.saved = [] := by
  unfold processDoc
  cases pyNumVal ts with
  | none => rfl
  | some tsv =>
    rcases renderMeta md with ⟨mlines, merr⟩
    cases merr
    · simp [audioStep_flag_off cfg _ tsv audio h]
    · simp

/-! ## C10: the audio block is gated on the flag and a non-empty text -/

/-- C10: audio decoding, WAV writing and audio-error reporting happen only
with `--save-audio` set and a non-empty audio text; with the flag unset
(or the audio text empty) the message is processed exactly as if the audio
field were absent, with no file saved. -/
theorem claim_C10_audio_gated (cfg : Config) (c : Nat) (kvs : List (String × Json)) :
    (cfg.saveAudio = false →
      processWire cfg c (.doc (.obj kvs)) =
        processWire cfg c (.doc (.obj (removeKey kvs "audio"))) ∧
      (processWire cfg c (.doc (.obj kvs))).1.saved = []) ∧
    (jgetD kvs "audio" (.str "") = .str "" →
      processWire cfg c (.doc (.obj kvs)) =
        processWire cfg c (.doc (.obj (removeKey kvs "audio")))) := by
  have hts : jgetD (removeKey kvs "audio") "timestamp" (.num 0) =
      jgetD kvs "timestamp" (.num 0) := by
    simp [jgetD, jlookup_removeKey_ne kvs "audio" "timestamp" (by decide)]
  have hmd : jgetD (removeKey kvs "audio") "metadata" (.obj []) =
      jgetD kvs "metadata" (.obj []) := by
    simp [jgetD, jlookup_removeKey_ne kvs "audio" "metadata" (by decide)]
  have haud : jgetD (removeKey kvs "audio") "audio" (.str "") = .str "" := by
    simp [jgetD, jlookup_removeKey_self]
  constructor
  · intro hflag
    constructor
    · simp only [processWire, hts, hmd, haud]
      exact processDoc_congr_audio cfg c _ _ _ _
        (fun c1 tsv => by
          rw [audioStep_flag_off cfg c1 tsv _ hflag, audioStep_flag_off cfg c1 tsv _ hflag])
    · simp only [processWire]
      exact processDoc_saved_flag_off cfg c _ _ _ hflag
  · intro hempty
    simp only [processWire, hts, hmd, haud, hempty]

/-- C10 witness: a malformed audio field with the save flag unset yields
the same output as no audio field at all, and no file. -/
theorem claim_C10_audio_gated_witness :
    processWire ⟨false, false⟩ 0 (.doc (.obj [("audio", Json.str "[999]")])) =
      processWire ⟨false, false⟩ 0
        (.doc (.obj (removeKey [("audio", Json.str "[999]")] "audio"))) ∧
    (processWire ⟨false, false⟩ 0 (.doc (.obj [("audio", Json.str "[999]")]))).1.saved
      = [] :=
  (claim_C10_audio_gated ⟨false, false⟩ 0 [("audio", Json.str "[999]")]).1 rfl

/-! ## C5: the double counter increment and filename monotonicity -/

theorem mem_of_getLast_opt {α : Type} : ∀ (l : List α) (x : α),
    l.getLast? = some x → x ∈ l
  | [], x, h => by simp at h
  | [a], x, h => by
    simp at h
    simp [h]
  | a :: b :: t, x, h => by
    rw [List.getLast?_cons_cons] at h
    exact List.mem_cons_of_mem a (mem_of_getLast_opt (b :: t) x h)

theorem runAux_chain (cfg : Config) (evs : List Ev) : ∀ (st : LoopState),
    (∀ sf ∈ st.saved, sf.counter ≤ st.counter) →
    List.Chain' (fun a b : SavedFile => a.counter < b.counter) st.saved →
    List.Chain' (fun a b : SavedFile => a.counter < b.counter)
      (runAux cfg st evs).2.saved ∧
    (∀ sf ∈ (runAux cfg st evs).2.saved,
      sf.counter ≤ (runAux cfg st evs).2.counter) := by
  induction evs with
  | nil => exact fun st h1 h2 => ⟨h2, h1⟩
  | cons e rest ih =>
    intro st h1 h2
    cases e with
    | interrupt => exact ⟨h2, h1⟩
    | fail => exact ⟨h2, h1⟩
    | empty =>
      by_cases hv : cfg.verbose = true
      · rw [show runAux cfg st (Ev.empty :: rest) = (Outcome.noMessages, st) by
          simp [runAux, hv]]
        exact ⟨h2, h1⟩
      · have hv' : cfg.verbose = false := by
          revert hv
          cases cfg.verbose <;> simp
        rw [show runAux cfg st (Ev.empty :: rest) = runAux cfg st rest by
          simp [runAux, hv']]
        exact ih st h1 h2
    | recv w =>
      have hrw : runAux cfg st (Ev.recv w :: rest) = runAux cfg (stepMsg cfg st w) rest :=
        rfl
      rw [hrw]
      obtain ⟨hle, hcase⟩ := processWire_saved cfg st.counter w
      rcases hpw : processWire cfg st.counter w with ⟨out, c2⟩
      rw [hpw] at hle hcase
      simp only at hle hcase
      have hstep : stepMsg cfg st w =
          ⟨c2, st.lines ++ out.lines, st.saved ++ out.saved⟩ := by
        simp [stepMsg, hpw]
      apply ih
      · rw [hstep]
        intro sf hm
        simp only at hm ⊢
        rcases List.mem_append.mp hm with h | h
        · exact le_trans (h1 sf h) hle
        · rcases hcase with hempty | ⟨sf2, hs, hc, hc2⟩
          · rw [hempty] at h
            cases h
          · rw [hs] at h
            rcases List.mem_singleton.mp h with rfl
            omega
      · rw [hstep]
        simp only
        rcases hcase with hempty | ⟨sf2, hs, hc, hc2⟩
        · rw [hempty, List.append_nil]
          exact h2
        · rw [hs]
          refine List.Chain'.append h2 (List.chain'_singleton _) ?_
          intro x hx y hy
          simp only [List.head?_cons, Option.mem_def, Option.some.injEq] at hy
          subst hy
          have hxm : x ∈ st.saved := mem_of_getLast_opt _ _ hx
          have := h1 x hxm
          omega

/-- C5: a received message whose audio is saved advances `audio_counter`
by two (line 64 on receive, line 113 on naming), so the counter in the
saved filename is the received counter plus one; and across any run the
filename counters are strictly increasing. -/
theorem claim_C5_counter_skips :
    (∀ (cfg : Config) (c : Nat) (w : Wire),
      (processWire cfg c w).1.saved ≠ [] →
      (processWire cfg c w).2 = c + 2 ∧
      (processWire cfg c w).1.saved.map SavedFile.counter = [c + 2]) ∧
    (∀ (cfg : Config) (evs : List Ev),
      List.Chain' (· < ·)
        ((runAux cfg ⟨0, [], []⟩ evs).2.saved.map SavedFile.counter)) := by
  constructor
  · intro cfg c w hne
    rcases (processWire_saved cfg c w).2 with h | ⟨sf, hs, hc, h2⟩
    · exact absurd h hne
    · exact ⟨h2, by rw [hs]; simp [hc]⟩
  · intro cfg evs
    rw [List.chain'_map]
    exact (runAux_chain cfg evs ⟨0, [], []⟩ (by simp) (by simp)).1

/-- C5 witness: one saved message from counter 0 ends with the counter at
2 and the file named with counter 2 (number 1 is skipped). -/
theorem claim_C5_counter_skips_witness :
    (processWire ⟨true, false⟩ 0 (.doc (.obj [("audio", Json.str "[1]")]))).2 = 0 + 2 ∧
    (processWire ⟨true, false⟩ 0
      (.doc (.obj [("audio", Json.str "[1]")]))).1.saved.map SavedFile.counter =
      [0 + 2] :=
  claim_C5_counter_skips.1 ⟨true, false⟩ 0 (.doc (.obj [("audio", Json.str "[1]")]))
    (by decide)

/-! ## C3: decode is total, fields default, malformed messages are skipped -/

theorem processDoc_errored_last (cfg : Config) (c : Nat) (ts md audio : Json) :
    (processDoc cfg c ts md audio).1.errored = true →
    (processDoc cfg c ts md audio).1.lines.getLast? = some "Error processing message" := by
  rcases hnum : pyNumVal ts with _ | tsv
  · intro _
    simp [processDoc, hnum]
  · rcases hrm : renderMeta md with ⟨mlines, merr⟩
    cases merr
    · rcases ha : audioStep cfg (c + 1) tsv audio with ⟨alines, saved, c2⟩
      intro h
      simp [processDoc, hnum, hrm, ha] at h
    · intro _
      have hg : ∀ (a : String) (l : List String) (x : String),
          (a :: (l ++ [x])).getLast? = some x := by
        intro a l x
        rw [show a :: (l ++ [x]) = (a :: l) ++ [x] from rfl, List.getLast?_concat]
      simp [processDoc, hnum, hrm, hg]

/-- C3: per-message decode is total — every received text parses to a
document or not, missing fields behave exactly as their defaults
(`timestamp` 0, `metadata` empty record, `audio` empty text), every
per-message failure is reported as an error line, processing a message
never exits the receive loop, and a malformed document between two valid
ones leaves both valid ones rendered. -/
theorem claim_C3_decode_total (cfg : Config) :
    (∀ (c : Nat) (kvs : List (String × Json)),
      (jlookup kvs "timestamp" = none →
        processWire cfg c (.doc (.obj kvs)) =
          processWire cfg c (.doc (.obj (("timestamp", Json.num 0) :: kvs)))) ∧
      (jlookup kvs "metadata" = none →
        processWire cfg c (.doc (.obj kvs)) =
          processWire cfg c (.doc (.obj (("metadata", Json.obj []) :: kvs)))) ∧
      (jlookup kvs "audio" = none →
        processWire cfg c (.doc (.obj kvs)) =
          processWire cfg c (.doc (.obj (("audio", Json.str "") :: kvs))))) ∧
    (∀ (c : Nat) (w : Wire),
      (processWire cfg c w).1.errored = true →
      (processWire cfg c w).1.lines.getLast? = some "Error parsing JSON message" ∨
      (processWire cfg c w).1.lines.getLast? = some "Error processing message") ∧
    (∀ (st : LoopState) (w : Wire) (evs : List Ev),
      runAux cfg st (.recv w :: evs) = runAux cfg (stepMsg cfg st w) evs) ∧
    (∀ (j1 j2 : Json),
      (runAux cfg ⟨0, [], []⟩
        [.recv (.doc j1), .recv .malformed, .recv (.doc j2)]).1 = Outcome.outOfEvents ∧
      (runAux cfg ⟨0, [], []⟩
        [.recv (.doc j1), .recv .malformed, .recv (.doc j2)]).2.lines =
        (processWire cfg 0 (.doc j1)).1.lines ++ ["Error parsing JSON message"] ++
        (processWire cfg (processWire cfg 0 (.doc j1)).2 (.doc j2)).1.lines) := by
  refine ⟨fun c kvs => ⟨?_, ?_, ?_⟩, fun c w => ?_, fun st w evs => rfl,
    fun j1 j2 => ?_⟩
  · intro h
    have e1 : jgetD kvs "timestamp" (.num 0) = Json.num 0 := by simp [jgetD, h]
    have e2 : jgetD (("timestamp", Json.num 0) :: kvs) "timestamp" (.num 0) =
        Json.num 0 := by simp [jgetD, jlookup]
    have e3 := jgetD_cons_ne "timestamp" "metadata" (Json.num 0) (Json.obj []) kvs
      (by decide)
    have e4 := jgetD_cons_ne "timestamp" "audio" (Json.num 0) (Json.str "") kvs
      (by decide)
    simp only [processWire, e1, e2, e3, e4]
  · intro h
    have e1 : jgetD kvs "metadata" (.obj []) = Json.obj [] := by simp [jgetD, h]
    have e2 : jgetD (("metadata", Json.obj []) :: kvs) "metadata" (.obj []) =
        Json.obj [] := by simp [jgetD, jlookup]
    have e3 := jgetD_cons_ne "metadata" "timestamp" (Json.obj []) (Json.num 0) kvs
      (by decide)
    have e4 := jgetD_cons_ne "metadata" "audio" (Json.obj []) (Json.str "") kvs
      (by decide)
    simp only [processWire, e1, e2, e3, e4]
  · intro h
    have e1 : jgetD kvs "audio" (.str "") = Json.str "" := by simp [jgetD, h]
    have e2 : jgetD (("audio", Json.str "") :: kvs) "audio" (.str "") =
        Json.str "" := by simp [jgetD, jlookup]
    have e3 := jgetD_cons_ne "audio" "timestamp" (Json.str "") (Json.num 0) kvs
      (by decide)
    have e4 := jgetD_cons_ne "audio" "metadata" (Json.str "") (Json.obj []) kvs
      (by decide)
    simp only [processWire, e1, e2, e3, e4]
  · intro h
    cases w with
    | malformed => left; rfl
    | doc j =>
      cases j with
      | obj kvs => exact Or.inr (processDoc_errored_last cfg c _ _ _ h)
      | null => right; rfl
      | bool b => right; rfl
      | num n => right; rfl
      | str s => right; rfl
      | arr xs => right; rfl
  · rcases h1 : processWire cfg 0 (.doc j1) with ⟨o1, c1⟩
    rcases h2 : processWire cfg c1 (.doc j2) with ⟨o2, c2⟩
    have hm : ∀ c : Nat, processWire cfg c .malformed =
        (⟨["Error parsing JSON message"], [], true⟩, c) := fun _ => rfl
    refine ⟨rfl, ?_⟩
    simp [runAux, stepMsg, h1, hm, h2]

/-- C3 witness: an empty document is processed exactly like one whose
fields are set to the documented defaults. -/
theorem claim_C3_decode_total_witness :
    processWire ⟨false, false⟩ 0 (.doc (.obj [])) =
      processWire ⟨false, false⟩ 0 (.doc (.obj [("timestamp", Json.num 0)])) :=
  ((claim_C3_decode_total ⟨false, false⟩).1 0 []).1 rfl

/-! ## C2: the dual-mode audio decode -/

theorem bytesOfEntries_bad : ∀ (es : List JEntry),
    (∃ e ∈ es, e = JEntry.nonint ∨ ∃ n, e = JEntry.int n ∧ (n < 0 ∨ 255 < n)) →
    bytesOfEntries es = none
  | [], h => by simp at h
  | a :: rest, h => by
    rcases h with ⟨e, hm, hbad⟩
    rcases List.mem_cons.mp hm with rfl | hm2
    · rcases hbad with rfl | ⟨n, rfl, hr⟩
      · rfl
      · have hc : ¬ (0 ≤ n ∧ n < 256) := by omega
        simp [bytesOfEntries, hc]
    · cases a with
      | nonint => rfl
      | int n =>
        by_cases hr : 0 ≤ n ∧ n < 256
        · simp [bytesOfEntries, hr, bytesOfEntries_bad rest ⟨e, hm2, hbad⟩]
        · simp [bytesOfEntries, hr]

/-- C2: the audio decode picks its branch by the bracket sniff — array
parse plus byte conversion when the text starts with `[` and ends with
`]`, base64 otherwise — and an array whose entries are out of range or not
integers fails with an error that the audio block reports for that message
only (no file, counter unchanged). -/
theorem claim_C2_audio_sniff (T : String) :
    ((startsWithBracket T ∧ endsWithBracket T) → decodeAudio T = arrayDecode T) ∧
    (¬ (startsWithBracket T ∧ endsWithBracket T) → decodeAudio T = b64decode T) ∧
    (∀ es, parseJsonArray T = some es →
      (∃ e ∈ es, e = JEntry.nonint ∨ ∃ n, e = JEntry.int n ∧ (n < 0 ∨ 255 < n)) →
      arrayDecode T = Except.error "bytes conversion failed") ∧
    (∀ (cfg : Config) (c1 : Nat) (tsv : Int) (msg : String),
      cfg.saveAudio = true → pyTruthy (Json.str T) = true →
      decodeAudio T = Except.error msg →
      audioStep cfg c1 tsv (Json.str T) =
        (["  Error processing audio: " ++ msg], [], c1)) := by
  refine ⟨fun h => ?_, fun h => ?_, fun es hp hbad => ?_, fun cfg c1 tsv msg hf ht hd => ?_⟩
  · rw [decodeAudio, if_pos h]
  · rw [decodeAudio, if_neg h]
  · simp [arrayDecode, hp, bytesOfEntries_bad es hbad]
  · simp [audioStep, ht, hf, hd]

/-- C2 witness: `"[300]"` sniffs as an array, parses, and fails byte
conversion; `"AA=="` sniffs as base64. -/
theorem claim_C2_audio_sniff_witness :
    decodeAudio "[300]" = arrayDecode "[300]" ∧
    arrayDecode "[300]" = Except.error "bytes conversion failed" ∧
    decodeAudio "AA==" = b64decode "AA==" :=
  ⟨(claim_C2_audio_sniff "[300]").1 (by decide),
   (claim_C2_audio_sniff "[300]").2.2.1 [JEntry.int 300] (by decide)
     ⟨JEntry.int 300, by simp, Or.inr ⟨300, rfl, by omega⟩⟩,
   (claim_C2_audio_sniff "AA==").2.1 (by decide)⟩

/-! ## C4: base64 round trip through the consumer's audio decode -/

theorem b64Index_b64Char : ∀ v : Fin 64, b64Index (b64Char v.val) = some v.val := by
  decide

theorem b64Char_ne_pad : ∀ v : Fin 64, b64Char v.val ≠ '=' := by decide

theorem b64Char_ne_lbracket : ∀ v : Fin 64, b64Char v.val ≠ '[' := by decide

theorem b64Index_b64Char_nat (v : Nat) (h : v < 64) :
    b64Index (b64Char v) = some v :=
  b64Index_b64Char ⟨v, h⟩

theorem b64Char_ne_pad_nat (v : Nat) (h : v < 64) : b64Char v ≠ '=' :=
  b64Char_ne_pad ⟨v, h⟩

theorem b64Char_ne_lbracket_nat (v : Nat) (h : v < 64) : b64Char v ≠ '[' :=
  b64Char_ne_lbracket ⟨v, h⟩

theorem b64encodeChunks_mem : ∀ (B : List Nat), (∀ b ∈ B, b < 256) →
    ∀ c ∈ b64encodeChunks B, (b64Index c).isSome = true ∨ c = '='
  | [], _, c, hc => by simp [b64encodeChunks] at hc
  | [a], hB, c, hc => by
    have ha : a < 256 := hB a (by simp)
    simp only [b64encodeChunks, List.mem_cons, List.not_mem_nil, or_false] at hc
    rcases hc with rfl | rfl | rfl | rfl
    · exact Or.inl (by rw [b64Index_b64Char_nat _ (by omega)]; rfl)
    · exact Or.inl (by rw [b64Index_b64Char_nat _ (by omega)]; rfl)
    · exact Or.inr rfl
    · exact Or.inr rfl
  | [a, b], hB, c, hc => by
    have ha : a < 256 := hB a (by simp)
    have hb : b < 256 := hB b (by simp)
    simp only [b64encodeChunks, List.mem_cons, List.not_mem_nil, or_false] at hc
    rcases hc with rfl | rfl | rfl | rfl
    · exact Or.inl (by rw [b64Index_b64Char_nat _ (by omega)]; rfl)
    · exact Or.inl (by rw [b64Index_b64Char_nat _ (by omega)]; rfl)
    · exact Or.inl (by rw [b64Index_b64Char_nat _ (by omega)]; rfl)
    · exact Or.inr rfl
  | a :: b :: c0 :: rest, hB, c, hc => by
    have ha : a < 256 := hB a (by simp)
    have hb : b < 256 := hB b (by simp)
    have hc0 : c0 < 256 := hB c0 (by simp)
    simp only [b64encodeChunks, List.mem_cons] at hc
    rcases hc with rfl | rfl | rfl | rfl | hc2
    · exact Or.inl (by rw [b64Index_b64Char_nat _ (by omega)]; rfl)
    · exact Or.inl (by rw [b64Index_b64Char_nat _ (by omega)]; rfl)
    · exact Or.inl (by rw [b64Index_b64Char_nat _ (by omega)]; rfl)
    · exact Or.inl (by rw [b64Index_b64Char_nat _ (by omega)]; rfl)
    · exact b64encodeChunks_mem rest (fun x hx => hB x (by simp [hx])) c hc2

theorem b64_decode_encode : ∀ (B : List Nat), (∀ b ∈ B, b < 256) →
    b64decodeQuads (b64encodeChunks B) = .ok B
  | [], _ => rfl
  | [a], hB => by
    have ha : a < 256 := hB a (by simp)
    simp only [b64encodeChunks, b64decodeQuads,
      b64Index_b64Char_nat (a / 4) (by omega),
      b64Index_b64Char_nat (a % 4 * 16) (by omega)]
    simp
    omega
  | [a, b], hB => by
    have ha : a < 256 := hB a (by simp)
    have hb : b < 256 := hB b (by simp)
    simp only [b64encodeChunks, b64decodeQuads,
      b64Index_b64Char_nat ((a * 256 + b) / 1024) (by omega),
      b64Index_b64Char_nat ((a * 256 + b) / 16 % 64) (by omega),
      b64Index_b64Char_nat ((a * 256 + b) % 16 * 4) (by omega)]
    simp [b64Char_ne_pad_nat ((a * 256 + b) % 16 * 4) (by omega)]
    omega
  | a :: b :: c :: rest, hB => by
    have ha : a < 256 := hB a (by simp)
    have hb : b < 256 := hB b (by simp)
    have hc : c < 256 := hB c (by simp)
    have hrest : ∀ x ∈ rest, x < 256 := fun x hx => hB x (by simp [hx])
    simp only [b64encodeChunks, b64decodeQuads,
      b64Index_b64Char_nat ((a * 65536 + b * 256 + c) / 262144) (by omega),
      b64Index_b64Char_nat ((a * 65536 + b * 256 + c) / 4096 % 64) (by omega),
      b64Index_b64Char_nat ((a * 65536 + b * 256 + c) / 64 % 64) (by omega),
      b64Index_b64Char_nat ((a * 65536 + b * 256 + c) % 64) (by omega)]
    simp [b64Char_ne_pad_nat ((a * 65536 + b * 256 + c) / 64 % 64) (by omega),
      b64Char_ne_pad_nat ((a * 65536 + b * 256 + c) % 64) (by omega),
      b64_decode_encode rest hrest]
    omega

theorem b64encode_not_bracket (B : List Nat) (hB : ∀ b ∈ B, b < 256) :
    startsWithBracket (b64encode B) = false := by
  cases B with
  | nil => rfl
  | cons a rest =>
    have ha : a < 256 := hB a (by simp)
    cases rest with
    | nil =>
      simp [b64encode, b64encodeChunks, startsWithBracket,
        b64Char_ne_lbracket_nat (a / 4) (by omega)]
    | cons b rest2 =>
      have hb : b < 256 := hB b (by simp)
      cases rest2 with
      | nil =>
        simp [b64encode, b64encodeChunks, startsWithBracket,
          b64Char_ne_lbracket_nat ((a * 256 + b) / 1024) (by omega)]
      | cons c rest3 =>
        have hc : c < 256 := hB c (by simp)
        simp [b64encode, b64encodeChunks, startsWithBracket,
          b64Char_ne_lbracket_nat ((a * 65536 + b * 256 + c) / 262144) (by omega)]

/-- C4: for every byte sequence, base64-encoding and decoding through the
consumer's audio decode — which always takes the base64 branch, since
base64 text never begins with `[` — reproduces the bytes exactly. -/
theorem claim_C4_base64_roundtrip (B : List Nat) (hB : ∀ b ∈ B, b < 256) :
    decodeAudio (b64encode B) = Except.ok B := by
  have hs : startsWithBracket (b64encode B) = false := b64encode_not_bracket B hB
  have hcond : ¬ (startsWithBracket (b64encode B) ∧ endsWithBracket (b64encode B)) := by
    simp [hs]
  rw [decodeAudio, if_neg hcond]
  have hf : (b64encodeChunks B).filter (fun c => (b64Index c).isSome ∨ c = '=')
      = b64encodeChunks B := by
    apply List.filter_eq_self.mpr
    intro c hc
    rcases b64encodeChunks_mem B hB c hc with h | h <;> simp [h]
  show b64decodeQuads ((b64encodeChunks B).filter _) = Except.ok B
  rw [hf]
  exact b64_decode_encode B hB

/-- C4 witness: a concrete byte sequence round trips through base64 and
the audio decode. -/
theorem claim_C4_base64_roundtrip_witness :
    decodeAudio (b64encode [0, 255, 10, 77]) = Except.ok [0, 255, 10, 77] :=
  claim_C4_base64_roundtrip [0, 255, 10, 77] (by decide)

/-! ## C1: the array-literal round trip -/

theorem digitChar_isDigit : ∀ d : Fin 10, isDigit (Nat.digitChar d.val) = true := by
  decide

theorem digitChar_not_ws : ∀ d : Fin 10, jws (Nat.digitChar d.val) = false := by
  decide

theorem digitChar_toNat : ∀ d : Fin 10, (Nat.digitChar d.val).toNat - 48 = d.val := by
  decide

theorem digitChar_ne : ∀ d : Fin 10,
    Nat.digitChar d.val ≠ '"' ∧ Nat.digitChar d.val ≠ 't' ∧
    Nat.digitChar d.val ≠ 'f' ∧ Nat.digitChar d.val ≠ 'n' ∧
    Nat.digitChar d.val ≠ '-' ∧ Nat.digitChar d.val ≠ ']' := by
  decide

theorem digitChar_ne_zero : ∀ d : Fin 10, d.val ≠ 0 → Nat.digitChar d.val ≠ '0' := by
  decide

theorem natDecimal_head : ∀ n : Nat, ∃ d : Fin 10, ∃ t : List Char,
    natDecimal n = Nat.digitChar d.val :: t ∧ (0 < n → d.val ≠ 0) ∧
    (∀ c ∈ t, isDigit c = true) := by
  intro n
  induction n using Nat.strong_induction_on with
  | _ n ih =>
    rw [natDecimal]
    split
    · rename_i h
      exact ⟨⟨n, h⟩, [], rfl, fun hp => (by omega : ¬ n = 0), by simp⟩
    · rename_i h
      have h10 : 10 ≤ n := by omega
      obtain ⟨d, t, heq, hd0, htd⟩ := ih (n / 10) (Nat.div_lt_self (by omega) (by omega))
      refine ⟨d, t ++ [Nat.digitChar (n % 10)], by rw [heq, List.cons_append],
        fun _ => hd0 (by omega), ?_⟩
      intro c hc
      rcases List.mem_append.mp hc with hc1 | hc2
      · exact htd c hc1
      · rw [List.mem_singleton.mp hc2]
        exact digitChar_isDigit ⟨n % 10, by omega⟩

theorem digitsVal_natDecimal : ∀ n : Nat, digitsVal (natDecimal n) = n := by
  intro n
  induction n using Nat.strong_induction_on with
  | _ n ih =>
    rw [natDecimal]
    split
    · rename_i h
      show digitsVal [Nat.digitChar n] = n
      have htn : (Nat.digitChar n).toNat - 48 = n := digitChar_toNat ⟨n, h⟩
      simp only [digitsVal, List.foldl]
      omega
    · rename_i h
      have h10 : 10 ≤ n := by omega
      have ihd := ih (n / 10) (Nat.div_lt_self (by omega) (by omega))
      have hfold : digitsVal (natDecimal (n / 10) ++ [Nat.digitChar (n % 10)]) =
          10 * digitsVal (natDecimal (n / 10)) + ((Nat.digitChar (n % 10)).toNat - 48) := by
        simp [digitsVal, List.foldl_append]
      rw [hfold, ihd]
      have htn : (Nat.digitChar (n % 10)).toNat - 48 = n % 10 :=
        digitChar_toNat ⟨n % 10, by omega⟩
      omega

theorem skipWs_cons_of_not_ws (c : Char) (cs : List Char) (h : jws c = false) :
    skipWs (c :: cs) = c :: cs := by
  simp [skipWs, h]

theorem takeDigits_append : ∀ (ds rest : List Char),
    (∀ c ∈ ds, isDigit c = true) → headIsDigit rest = false →
    takeDigits (ds ++ rest) = (ds, rest)
  | [], rest, _, hr => by
    cases rest with
    | nil => rfl
    | cons c cs =>
      simp only [headIsDigit] at hr
      simp [takeDigits, hr]
  | d :: ds, rest, hd, hr => by
    have h1 : isDigit d = true := hd d (by simp)
    simp [takeDigits, h1,
      takeDigits_append ds rest (fun c hc => hd c (by simp [hc])) hr]

theorem parseIntPart_natDecimal (n : Nat) (rest : List Char)
    (hr : headIsDigit rest = false) :
    parseIntPart (natDecimal n ++ rest) = some (n, rest) := by
  obtain ⟨d, t, heq, hd0, htd⟩ := natDecimal_head n
  by_cases hn : n = 0
  · subst hn
    have h0 : natDecimal 0 = ['0'] := by rw [natDecimal]; rfl
    rw [h0]
    cases rest with
    | nil => rfl
    | cons c cs =>
      simp only [headIsDigit] at hr
      simp [parseIntPart, headIsDigit, hr]
  · have hpos : 0 < n := Nat.pos_of_ne_zero hn
    have hne0 : Nat.digitChar d.val ≠ '0' := digitChar_ne_zero d (hd0 hpos)
    have hdig : isDigit (Nat.digitChar d.val) = true := digitChar_isDigit d
    rw [heq, List.cons_append]
    simp only [parseIntPart, hne0, if_false, hdig, if_true,
      takeDigits_append t rest htd hr]
    have hv : digitsVal (Nat.digitChar d.val :: t) = n := by
      rw [← heq]
      exact digitsVal_natDecimal n
    simp [hne0, hv]

theorem parseFracExp_stop (rest : List Char) (hdot : headIs rest '.' = false)
    (he : headIs rest 'e' = false) (hE : headIs rest 'E' = false) :
    parseFracExp rest = some (false, rest) := by
  cases rest with
  | nil => rfl
  | cons c r =>
    simp only [headIs, decide_eq_false_iff_not] at hdot he hE
    simp [parseFracExp, hdot, he, hE]

theorem parseNumber_natDecimal (n : Nat) (rest : List Char)
    (hr : headIsDigit rest = false) (hdot : headIs rest '.' = false)
    (he : headIs rest 'e' = false) (hE : headIs rest 'E' = false) :
    parseNumber (natDecimal n ++ rest) = some (JEntry.int n, rest) := by
  obtain ⟨d, t, heq, _, _⟩ := natDecimal_head n
  have hne : Nat.digitChar d.val ≠ '-' := (digitChar_ne d).2.2.2.2.1
  have hpi : parseIntPart (Nat.digitChar d.val :: (t ++ rest)) = some (n, rest) := by
    have := parseIntPart_natDecimal n rest hr
    rwa [heq, List.cons_append] at this
  rw [heq, List.cons_append]
  simp [parseNumber, hne, hpi, parseFracExp_stop rest hdot he hE]

theorem parseEntry_natDecimal (n : Nat) (rest : List Char)
    (hr : headIsDigit rest = false) (hdot : headIs rest '.' = false)
    (he : headIs rest 'e' = false) (hE : headIs rest 'E' = false) :
    parseEntry (natDecimal n ++ rest) = some (JEntry.int n, rest) := by
  obtain ⟨d, t, heq, _, _⟩ := natDecimal_head n
  obtain ⟨hq, ht, hf, hn, _, _⟩ := digitChar_ne d
  have hnum : parseNumber (Nat.digitChar d.val :: (t ++ rest)) =
      some (JEntry.int n, rest) := by
    have := parseNumber_natDecimal n rest hr hdot he hE
    rwa [heq, List.cons_append] at this
  rw [heq, List.cons_append]
  simp [parseEntry, hq, ht, hf, hn, hnum]

theorem headIsDigit_cons (c : Char) (tail : List Char) :
    headIsDigit (c :: tail) = isDigit c := rfl

theorem headIs_cons (c : Char) (tail : List Char) (x : Char) :
    headIs (c :: tail) x = decide (c = x) := rfl

theorem parseElems_step (fuel : Nat) (cs : List Char) :
    parseElems (fuel + 1) cs =
      match parseEntry (skipWs cs) with
      | none => none
      | some (e, r1) =>
        match skipWs r1 with
        | ',' :: r3 =>
          match parseElems fuel r3 with
          | none => none
          | some (es, r4) => some (e :: es, r4)
        | ']' :: r3 => some ([e], r3)
        | _ => none := rfl

theorem parseElems_space (fuel : Nat) (cs : List Char) :
    parseElems (fuel + 1) (' ' :: cs) = parseElems (fuel + 1) cs := by
  have h : skipWs (' ' :: cs) = skipWs cs := by simp [skipWs, jws]
  rw [parseElems_step, parseElems_step, h]

theorem parseElems_strList : ∀ (B : List Nat) (fuel : Nat), B ≠ [] →
    B.length ≤ fuel →
    parseElems fuel (commaSpaceJoin (B.map natDecimal) ++ [']']) =
      some (B.map (fun b : Nat => JEntry.int (b : Int)), [])
  | [], _, h, _ => absurd rfl h
  | [b], fuel, _, hf => by
    cases fuel with
    | zero => simp at hf
    | succ f =>
      obtain ⟨d, t, heq, _, _⟩ := natDecimal_head b
      have hsw : skipWs (natDecimal b ++ [']']) = natDecimal b ++ [']'] := by
        rw [heq, List.cons_append]
        exact skipWs_cons_of_not_ws _ _ (digitChar_not_ws d)
      have hpe := parseEntry_natDecimal b [']'] (by decide) (by decide) (by decide)
        (by decide)
      have hsr : skipWs [']'] = [']'] := skipWs_cons_of_not_ws ']' [] (by decide)
      simp only [List.map, commaSpaceJoin, parseElems, hsw, hpe, hsr]
  | b :: b2 :: rest, fuel, _, hf => by
    cases fuel with
    | zero => simp at hf
    | succ f =>
      obtain ⟨d, t, heq, _, _⟩ := natDecimal_head b
      have hre : commaSpaceJoin ((b :: b2 :: rest).map natDecimal) ++ [']'] =
          natDecimal b ++ (',' :: ' ' ::
            (commaSpaceJoin ((b2 :: rest).map natDecimal) ++ [']'])) := by
        simp [commaSpaceJoin, List.append_assoc]
      have hsw : skipWs (natDecimal b ++ (',' :: ' ' ::
          (commaSpaceJoin ((b2 :: rest).map natDecimal) ++ [']']))) =
          natDecimal b ++ (',' :: ' ' ::
            (commaSpaceJoin ((b2 :: rest).map natDecimal) ++ [']'])) := by
        rw [heq, List.cons_append]
        exact skipWs_cons_of_not_ws _ _ (digitChar_not_ws d)
      have hpe := parseEntry_natDecimal b (',' :: ' ' ::
          (commaSpaceJoin ((b2 :: rest).map natDecimal) ++ [']']))
        (by rw [headIsDigit_cons]; decide) (by rw [headIs_cons]; decide)
        (by rw [headIs_cons]; decide) (by rw [headIs_cons]; decide)
      have hsc : skipWs (',' :: ' ' ::
          (commaSpaceJoin ((b2 :: rest).map natDecimal) ++ [']'])) =
          ',' :: ' ' :: (commaSpaceJoin ((b2 :: rest).map natDecimal) ++ [']']) :=
        skipWs_cons_of_not_ws ',' _ (by decide)
      have hlen : (b2 :: rest).length ≤ f := by
        simp at hf ⊢
        omega
      cases f with
      | zero => simp at hlen
      | succ f2 =>
        have hih := parseElems_strList (b2 :: rest) (f2 + 1) (by simp) hlen
        rw [hre, parseElems_step, hsw, hpe]
        simp only [hsc,
          parseElems_space f2 (commaSpaceJoin ((b2 :: rest).map natDecimal) ++ [']']),
          hih]
        simp

theorem bytesOfEntries_map : ∀ (B : List Nat), (∀ b ∈ B, b < 256) →
    bytesOfEntries (B.map (fun b : Nat => JEntry.int (b : Int))) = some B
  | [], _ => rfl
  | b :: rest, hB => by
    have hb : b < 256 := hB b (by simp)
    have hc : (0:Int) ≤ (b:Int) ∧ (b:Int) < 256 := by omega
    have hih := bytesOfEntries_map rest (fun x hx => hB x (by simp [hx]))
    simp only [List.map_cons, bytesOfEntries, hih]
    rw [if_pos hc]
    simp

theorem commaSpaceJoin_length : ∀ (B : List Nat), B ≠ [] →
    B.length ≤ (commaSpaceJoin (B.map natDecimal)).length
  | [], h => absurd rfl h
  | [b], _ => by
    obtain ⟨d, t, heq, _, _⟩ := natDecimal_head b
    simp [commaSpaceJoin, heq]
  | b :: b2 :: rest, _ => by
    obtain ⟨d, t, heq, _, _⟩ := natDecimal_head b
    have hih := commaSpaceJoin_length (b2 :: rest) (by simp)
    simp only [List.map, commaSpaceJoin] at hih ⊢
    simp [heq] at hih ⊢
    omega

theorem parseJsonArray_strList (B : List Nat) :
    parseJsonArray (strList B) = some (B.map (fun b : Nat => JEntry.int (b : Int))) := by
  cases B with
  | nil => decide
  | cons b rest =>
    obtain ⟨d, t, heq, _, _⟩ := natDecimal_head b
    obtain ⟨tail, hjoin⟩ : ∃ tail, commaSpaceJoin ((b :: rest).map natDecimal) =
        natDecimal b ++ tail := by
      cases rest with
      | nil => exact ⟨[], by simp [commaSpaceJoin]⟩
      | cons b2 rest2 =>
        exact ⟨',' :: ' ' :: commaSpaceJoin ((b2 :: rest2).map natDecimal),
          by simp [commaSpaceJoin]⟩
    have hne : headIs (commaSpaceJoin ((b :: rest).map natDecimal) ++ [']']) ']'
        = false := by
      rw [hjoin, heq, List.cons_append, List.cons_append, headIs_cons,
        decide_eq_false_iff_not]
      exact (digitChar_ne d).2.2.2.2.2
    have hsw : skipWs (commaSpaceJoin ((b :: rest).map natDecimal) ++ [']']) =
        commaSpaceJoin ((b :: rest).map natDecimal) ++ [']'] := by
      conv_lhs => rw [hjoin, heq, List.cons_append, List.cons_append]
      rw [skipWs_cons_of_not_ws _ _ (digitChar_not_ws d)]
      rw [hjoin, heq, List.cons_append, List.cons_append]
    have hlen : (b :: rest).length ≤
        (commaSpaceJoin ((b :: rest).map natDecimal) ++ [']']).length + 1 := by
      have := commaSpaceJoin_length (b :: rest) (by simp)
      simp at this ⊢
      omega
    have hpe := parseElems_strList (b :: rest)
      ((commaSpaceJoin ((b :: rest).map natDecimal) ++ [']']).length + 1)
      (by simp) hlen
    have h1 : parseJsonArray (strList (b :: rest)) =
        parseArrayBody (skipWs (commaSpaceJoin ((b :: rest).map natDecimal) ++ [']']))
        := rfl
    rw [h1, hsw]
    simp only [parseArrayBody, hne, Bool.false_eq_true, if_false, hpe]
    simp [skipWs]

theorem strList_sniff (B : List Nat) :
    startsWithBracket (strList B) = true ∧ endsWithBracket (strList B) = true := by
  constructor
  · rfl
  · have h : (strList B).data.getLast? = some ']' := by
      rw [show (strList B).data =
        ('[' :: commaSpaceJoin (B.map natDecimal)) ++ [']'] from rfl]
      exact List.getLast?_concat _
    simp [endsWithBracket, h]

/-- C1: for every byte sequence of length at most 10000, the producer's
array-literal encoding (`str(list(B))`) decoded through the consumer's
audio decode — which sniffs the brackets and takes the array branch —
reproduces the bytes exactly. -/
theorem claim_C1_array_roundtrip (B : List Nat) (hB : ∀ b ∈ B, b < 256)
    (_hlen : B.length ≤ 10000) : decodeAudio (strList B) = Except.ok B := by
  obtain ⟨hs, he⟩ := strList_sniff B
  rw [decodeAudio, if_pos ⟨hs, he⟩]
  simp only [arrayDecode, parseJsonArray_strList B, bytesOfEntries_map B hB]

/-- C1 witness: a concrete byte sequence round trips through the array
literal and the audio decode. -/
theorem claim_C1_array_roundtrip_witness :
    decodeAudio (strList [0, 255, 7]) = Except.ok [0, 255, 7] :=
  claim_C1_array_roundtrip [0, 255, 7] (by decide) (by decide)

end SdrTrunk
